import Mathlib

/-!
Verification of the nand2rust emulator core against its specification.

The debugger layer (`SharedState`, `CommonAction`, `reduce_common`,
`run_steps`) is embedded directly from `src/bin/emulator/shared_ui.rs`.
The hardware module (`Instruction`, `RAM`, `Hardware`, `Breakpoint`) is not
part of the provided sources (only its callers are), so those definitions
are modelled from the specification, as indicated in their doc comments.

Machine words are 16-bit two's-complement values, represented here as raw
bit patterns `Nat < 65536`; arithmetic wraps via `% 65536`.
-/

/-- Modelled from the spec: an `Instruction` wraps a raw 16-bit value and
exposes a decoded view of its bit fields (`hardware.rs` is not in the
provided sources; `Instruction::new` is called with a raw word in
`src/src/emulator/hardware_state.rs`). -/
structure Instruction where
  value : Nat
deriving Repr, DecidableEq

/-- Modelled from the spec: construct an instruction from a raw 16-bit word. -/
def Instruction.new (value : Nat) : Instruction :=
  ⟨value % 65536⟩

/-- Top bit 1 marks a compute instruction, top bit 0 an address instruction. -/
def Instruction.is_compute (i : Instruction) : Bool :=
  decide (32768 ≤ i.value)

/-- The 15-bit unsigned immediate of an address instruction. -/
def Instruction.address_value (i : Instruction) : Nat :=
  i.value % 32768

/-- Bit 12: whether the ALU second operand is memory-at-address (1) or the
address register (0). -/
def Instruction.a_bit (i : Instruction) : Nat :=
  i.value / 4096 % 2

/-- Bits 6-11: the 6-bit ALU function code. -/
def Instruction.comp_bits (i : Instruction) : Nat :=
  i.value / 64 % 64

/-- Bits 3-5: the three destination flags (bit 5 = address register,
bit 4 = data register, bit 3 = memory). -/
def Instruction.dest_bits (i : Instruction) : Nat :=
  i.value / 8 % 8

/-- Bits 0-2: the 3-bit jump condition selector. -/
def Instruction.jump_bits (i : Instruction) : Nat :=
  i.value % 8

/-- Bits 13-14 of a compute instruction, carried by the decoded view so that
re-encoding is lossless on every 16-bit pattern. -/
def Instruction.unused_bits (i : Instruction) : Nat :=
  i.value / 8192 % 4

/-- Re-encode the decoded view back into the raw 16-bit word: an address
instruction contributes its 15-bit immediate, a compute instruction is
reassembled from its bit fields. -/
def Instruction.encode (i : Instruction) : Nat :=
  if i.is_compute then
    32768 + 8192 * i.unused_bits + 4096 * i.a_bit + 64 * i.comp_bits +
      8 * i.dest_bits + i.jump_bits
  else
    i.address_value

/-- Modelled from the spec: the RAM, an addressable array of 16-bit words
with memory-mapped screen and keyboard (`hardware.rs` is not in the
provided sources). Represented as a total function from addresses to words. -/
structure RAM where
  contents : Nat → Nat

/-- The address of the memory-mapped keyboard word. -/
def RAM.KBD : Nat := 24576

/-- Modelled from the spec: the sole external-input entry point, writing the
keyboard word directly (the keyboard is not writable by executing
instructions). -/
def RAM.set_keyboard (ram : RAM) (code : Nat) : RAM :=
  { contents := fun address => if address = RAM.KBD then code else ram.contents address }

/-- Modelled from the spec: a CPU-originated memory write.  Writes to the
keyboard word are rejected from program code, per the memory-model contract. -/
def RAM.cpu_write (ram : RAM) (address : Nat) (value : Nat) : RAM :=
  if address = RAM.KBD then ram
  else { contents := fun a => if a = address then value else ram.contents a }

/-- Modelled from the spec: the fixed ALU function table.  `x` is the data
register, `y` the selected second operand, both 16-bit words; the 18
canonical 6-bit codes map to the documented operations and every undefined
code produces the stable result 0. -/
def alu (code : Nat) (x y : Nat) : Nat :=
  match code with
  | 42 => 0
  | 63 => 1
  | 58 => 65535
  | 12 => x
  | 48 => y
  | 13 => 65535 - x
  | 49 => 65535 - y
  | 15 => (65536 - x) % 65536
  | 51 => (65536 - y) % 65536
  | 31 => (x + 1) % 65536
  | 55 => (y + 1) % 65536
  | 14 => (x + 65535) % 65536
  | 50 => (y + 65535) % 65536
  | 2 => (x + y) % 65536
  | 19 => (x + (65536 - y)) % 65536
  | 7 => (y + (65536 - x)) % 65536
  | 0 => Nat.land x y
  | 21 => Nat.lor x y
  | _ => 0

/-- Modelled from the spec: evaluate the 3-bit jump selector against the
sign/zero classification of the 16-bit ALU result (negative means the top
bit is set). -/
def jump_taken (j : Nat) (r : Nat) : Bool :=
  let neg : Bool := decide (32768 ≤ r)
  let zero : Bool := decide (r = 0)
  let pos : Bool := !neg && !zero
  (decide (j / 4 % 2 = 1) && neg) || (decide (j / 2 % 2 = 1) && zero) ||
    (decide (j % 2 = 1) && pos)

/-- Modelled from the spec: which quantity a breakpoint watches — the address
register, the data register, the program counter, or a specific memory cell. -/
inductive BreakpointVar where
  | A
  | D
  | PC
  | Mem (address : Nat)
deriving Repr, DecidableEq

/-- Modelled from the spec: a breakpoint is a pair of a watched variable and
a target value. -/
structure Breakpoint where
  var : BreakpointVar
  value : Nat
deriving Repr, DecidableEq

/-- Modelled from the spec: the hardware state — program counter, address
register, data register, ROM, RAM, and the registered breakpoints owned by
the debugging session (`hardware.rs` is not in the provided sources). -/
structure Hardware where
  pc : Nat
  a : Nat
  d : Nat
  rom : Nat → Instruction
  ram : RAM
  breakpoints : List Breakpoint

/-- Modelled from the spec: whether a breakpoint's watched variable currently
equals its target value in the given hardware state. -/
def Breakpoint.hit (bp : Breakpoint) (h : Hardware) : Bool :=
  match bp.var with
  | BreakpointVar.A => decide (h.a = bp.value)
  | BreakpointVar.D => decide (h.d = bp.value)
  | BreakpointVar.PC => decide (h.pc = bp.value)
  | BreakpointVar.Mem address => decide (h.ram.contents address = bp.value)

/-- Whether any registered breakpoint's watched variable equals its target. -/
def Hardware.bpMatched (h : Hardware) : Bool :=
  h.breakpoints.any (fun bp => bp.hit h)

/-- Modelled from the spec: one CPU step — fetch the instruction at the
program counter, decode, execute, update the flagged destinations, advance
the program counter (to the address-register value when the jump condition
holds).  Returns the successor state and whether the step was the halt
convention (an unconditional self-jump). -/
def Hardware.step (h : Hardware) : Hardware × Bool :=
  let i := h.rom h.pc
  if i.is_compute then
    let x := h.d % 65536
    let y := (if i.a_bit = 1 then h.ram.contents h.a else h.a) % 65536
    let r := alu i.comp_bits x y
    let ram' := if i.dest_bits % 2 = 1 then h.ram.cpu_write h.a r else h.ram
    let a' := if i.dest_bits / 4 % 2 = 1 then r else h.a
    let d' := if i.dest_bits / 2 % 2 = 1 then r else h.d
    let taken := jump_taken i.jump_bits r
    let pc' := if taken then a' else (h.pc + 1) % 32768
    let halted := taken && decide (i.jump_bits = 7) && decide (pc' = h.pc)
    ({ h with pc := pc', a := a', d := d', ram := ram' }, halted)
  else
    ({ h with a := i.address_value, pc := (h.pc + 1) % 32768 }, false)

/-- Modelled from the spec: reset reinitializes the CPU state — registers
zero, program counter zero, memory cleared — while the loaded program and
the registered breakpoints persist. -/
def Hardware.reset (h : Hardware) : Hardware :=
  { h with pc := 0, a := 0, d := 0, ram := { contents := fun _ => 0 } }

/-- Modelled from the spec: `run(step_count)` executes up to `step_count`
steps, stopping earlier if a step reports halted or if a registered
breakpoint's watched value matches after a step; returns the final state and
whether it halted. -/
def Hardware.run (h : Hardware) : Nat → Hardware × Bool
  | 0 => (h, false)
  | n + 1 =>
    if (h.step).snd || Hardware.bpMatched (h.step).fst then
      ((h.step).fst, (h.step).snd)
    else
      Hardware.run (h.step).fst n

/-- The hardware state reached after single-stepping `n` times. -/
def Hardware.stepIter (h : Hardware) : Nat → Hardware
  | 0 => h
  | n + 1 => Hardware.stepIter (h.step).fst n

/-- Whether the budgeted run would stop after its `(i+1)`-th step: that step
reports halted, or some breakpoint matches in the state it produces. -/
def Hardware.stopsAt (h : Hardware) (i : Nat) : Bool :=
  ((h.stepIter i).step).snd || Hardware.bpMatched ((h.stepIter i).step).fst

/-- The shared debugger state, from `src/src/bin/emulator/shared_ui.rs`
(struct `SharedState`): desired run rate, whether a run has been started,
and whether the breakpoints window is open. -/
structure SharedState where
  desired_steps_per_second : Nat
  run_started : Bool
  breakpoints_open : Bool
deriving Repr, DecidableEq

/-- The debugger actions handled by `reduce_common`, from
`src/src/bin/emulator/shared_ui.rs` (enum `CommonAction`). -/
inductive CommonAction where
  | StepClicked
  | RunClicked
  | PauseClicked
  | ResetClicked
  | BreakpointsClicked
  | BreakpointsClosed
  | SpeedSliderMoved (value : Nat)
deriving Repr, DecidableEq

/-- Modelled from the spec: the concrete implementor of the `CommonState`
trait of `src/src/bin/emulator/shared_ui.rs` (the implementing type is not
in the provided sources).  It bundles the `SharedState` with the hardware;
its trait methods are field accesses and the hardware operations. -/
structure EmulatorState where
  shared_state : SharedState
  hardware : Hardware

/-- Modelled from the spec: the `CommonState::step` of the debugger session —
one CPU step, reporting a stop when the CPU signals the halt convention or
any registered breakpoint matches after the step. -/
def EmulatorState.step (s : EmulatorState) : EmulatorState × Bool :=
  ({ s with hardware := (s.hardware.step).fst },
    (s.hardware.step).snd || Hardware.bpMatched (s.hardware.step).fst)

/-- `CommonState::ram_mut().set_keyboard` as a state transformer. -/
def EmulatorState.setKeyboard (s : EmulatorState) (code : Nat) : EmulatorState :=
  { s with hardware := { s.hardware with ram := s.hardware.ram.set_keyboard code } }

/-- `reduce_common`, embedded arm by arm from
`src/src/bin/emulator/shared_ui.rs` lines 346-369. -/
def reduce_common (state : EmulatorState) (action : CommonAction) : EmulatorState :=
  match action with
  | CommonAction.StepClicked => state
  | CommonAction.RunClicked =>
    { state with shared_state := { state.shared_state with run_started := true } }
  | CommonAction.PauseClicked =>
    { state with shared_state := { state.shared_state with run_started := false } }
  | CommonAction.ResetClicked =>
    { state with
      hardware := state.hardware.reset,
      shared_state := { state.shared_state with run_started := false } }
  | CommonAction.BreakpointsClicked =>
    { state with shared_state :=
      { state.shared_state with breakpoints_open := !state.shared_state.breakpoints_open } }
  | CommonAction.BreakpointsClosed =>
    { state with shared_state := { state.shared_state with breakpoints_open := false } }
  | CommonAction.SpeedSliderMoved value =>
    { state with shared_state := { state.shared_state with desired_steps_per_second := value } }

/-- The stepping loop of `run_steps`: up to `n` calls of `step`; when a step
reports a stop, `run_started` is cleared and the loop returns early
(`src/src/bin/emulator/shared_ui.rs` lines 482-487). -/
def run_steps_loop : EmulatorState → Nat → EmulatorState
  | s, 0 => s
  | s, n + 1 =>
    if (s.step).snd then
      { (s.step).fst with shared_state :=
        { ((s.step).fst).shared_state with run_started := false } }
    else
      run_steps_loop (s.step).fst n

/-- `run_steps`, embedded from `src/src/bin/emulator/shared_ui.rs` lines
474-490.  With a positive budget it first writes 0 to the keyboard word,
then writes the fixed code 32 if any key is down (the source ignores which
key; `key_down` is modelled as the pressed key's code), then runs the loop. -/
def run_steps (state : EmulatorState) (steps_to_run : Nat) (key_down : Option Nat) :
    EmulatorState :=
  if 0 < steps_to_run then
    run_steps_loop
      (match key_down with
        | some _ => (state.setKeyboard 0).setKeyboard 32
        | none => state.setKeyboard 0)
      steps_to_run
  else
    state

/-- An observable event of one `run_steps` invocation: an external keyboard
write, or a CPU step together with the stop flag it returned. -/
inductive RunEvent where
  | keyboardWrite (code : Nat)
  | cpuStep (halted : Bool)
deriving Repr, DecidableEq

/-- Whether an event is an external keyboard write. -/
def RunEvent.isKeyboardWrite : RunEvent → Bool
  | RunEvent.keyboardWrite _ => true
  | RunEvent.cpuStep _ => false

/-- The stop flag of a CPU-step event, `none` for keyboard writes. -/
def RunEvent.stepFlag : RunEvent → Option Bool
  | RunEvent.keyboardWrite _ => none
  | RunEvent.cpuStep b => some b

/-- The stepping loop of `run_steps`, instrumented to record one `cpuStep`
event per invocation of `step`, in order. -/
def run_steps_loop_events : EmulatorState → Nat → List RunEvent × EmulatorState
  | s, 0 => ([], s)
  | s, n + 1 =>
    if (s.step).snd then
      ([RunEvent.cpuStep true],
        { (s.step).fst with shared_state :=
          { ((s.step).fst).shared_state with run_started := false } })
    else
      (RunEvent.cpuStep false :: (run_steps_loop_events (s.step).fst n).fst,
        (run_steps_loop_events (s.step).fst n).snd)

/-- `run_steps`, instrumented to record its keyboard writes and CPU steps in
program order. -/
def run_steps_events (state : EmulatorState) (steps_to_run : Nat) (key_down : Option Nat) :
    List RunEvent × EmulatorState :=
  if 0 < steps_to_run then
    match key_down with
    | some _ =>
      (RunEvent.keyboardWrite 0 :: RunEvent.keyboardWrite 32 ::
          (run_steps_loop_events ((state.setKeyboard 0).setKeyboard 32) steps_to_run).fst,
        (run_steps_loop_events ((state.setKeyboard 0).setKeyboard 32) steps_to_run).snd)
    | none =>
      (RunEvent.keyboardWrite 0 ::
          (run_steps_loop_events (state.setKeyboard 0) steps_to_run).fst,
        (run_steps_loop_events (state.setKeyboard 0) steps_to_run).snd)
  else
    ([], state)

/-- A concrete debugger state used to instantiate proved theorems: an empty
program (ROM of all-zero address instructions), cleared RAM, no breakpoints. -/
def demoState : EmulatorState :=
  { shared_state :=
      { desired_steps_per_second := 100, run_started := true, breakpoints_open := false },
    hardware :=
      { pc := 0, a := 0, d := 0,
        rom := fun _ => Instruction.new 0,
        ram := { contents := fun _ => 0 },
        breakpoints := [] } }

/-- Claim C3: `reduce_common` turns an external run request into
`run_started = true` (Stopped to Running) and an external pause request into
`run_started = false` (Running to Stopped). -/
theorem reduce_common_run_pause (s : EmulatorState) :
    (reduce_common s CommonAction.RunClicked).shared_state.run_started = true ∧
      (reduce_common s CommonAction.PauseClicked).shared_state.run_started = false := by
  exact ⟨rfl, rfl⟩

/-- Claim C4: from every debugger state, the reset action applies the CPU
reset to the hardware — reinitializing the program counter and registers to
zero and clearing memory — and leaves the session stopped
(`run_started = false`). -/
theorem reduce_common_reset (s : EmulatorState) :
    (reduce_common s CommonAction.ResetClicked).hardware = s.hardware.reset ∧
      (reduce_common s CommonAction.ResetClicked).hardware.pc = 0 ∧
      (reduce_common s CommonAction.ResetClicked).hardware.a = 0 ∧
      (reduce_common s CommonAction.ResetClicked).hardware.d = 0 ∧
      (∀ address, (reduce_common s CommonAction.ResetClicked).hardware.ram.contents address = 0) ∧
      (reduce_common s CommonAction.ResetClicked).shared_state.run_started = false := by
  exact ⟨rfl, rfl, rfl, rfl, fun _ => rfl, rfl⟩

/-- Claim C7: applying the reset action twice in a row via `reduce_common`
yields exactly the same state as applying it once. -/
theorem reduce_common_reset_idempotent (s : EmulatorState) :
    reduce_common (reduce_common s CommonAction.ResetClicked) CommonAction.ResetClicked =
      reduce_common s CommonAction.ResetClicked := by
  rfl

/-- Claim C9: `run_steps` with a step budget of 0 leaves the entire state
unchanged — no CPU step executes, the keyboard word is not written, and
`run_started` keeps its prior value. -/
theorem run_steps_zero_budget (s : EmulatorState) (key_down : Option Nat) :
    run_steps s 0 key_down = s := by
  rfl

/-- Claim C10: `reduce_common` on `SpeedSliderMoved v` sets
`desired_steps_per_second` to exactly `v` and leaves `run_started`,
`breakpoints_open` and the whole hardware state unchanged. -/
theorem reduce_common_speed_slider (s : EmulatorState) (v : Nat) :
    (reduce_common s (CommonAction.SpeedSliderMoved v)).shared_state.desired_steps_per_second
        = v ∧
      (reduce_common s (CommonAction.SpeedSliderMoved v)).shared_state.run_started
        = s.shared_state.run_started ∧
      (reduce_common s (CommonAction.SpeedSliderMoved v)).shared_state.breakpoints_open
        = s.shared_state.breakpoints_open ∧
      (reduce_common s (CommonAction.SpeedSliderMoved v)).hardware = s.hardware := by
  exact ⟨rfl, rfl, rfl, rfl⟩

/-- Claim C5: for every 16-bit value, decoding it as an `Instruction` and
re-encoding the decoded view reproduces the original bits, including bit
patterns whose function code is undefined. -/
theorem instruction_roundtrip (v : Nat) (hv : v < 65536) :
    Instruction.encode (Instruction.new v) = v := by
  unfold Instruction.encode Instruction.new Instruction.is_compute Instruction.address_value
    Instruction.unused_bits Instruction.a_bit Instruction.comp_bits Instruction.dest_bits
    Instruction.jump_bits
  simp only [Nat.mod_eq_of_lt hv]
  split
  · rename_i h
    simp only [decide_eq_true_eq] at h
    omega
  · rename_i h
    simp only [decide_eq_true_eq] at h
    omega

/-- Witness for C5 at the concrete pattern 36608, a compute instruction whose
function code 0b111100 is not one of the 18 defined codes. -/
theorem instruction_roundtrip_witness :
    Instruction.encode (Instruction.new 36608) = 36608 :=
  instruction_roundtrip 36608 (by decide)

/-- A CPU-originated write never changes the keyboard word. -/
theorem RAM.cpu_write_keyboard (ram : RAM) (address value : Nat) :
    (ram.cpu_write address value).contents RAM.KBD = ram.contents RAM.KBD := by
  unfold RAM.cpu_write
  split
  · rfl
  · rename_i hne
    exact if_neg (fun hc => hne hc.symm)

/-- A CPU step never changes the keyboard word. -/
theorem Hardware.step_keyboard (h : Hardware) :
    ((h.step).fst).ram.contents RAM.KBD = h.ram.contents RAM.KBD := by
  unfold Hardware.step
  dsimp only
  split
  · by_cases hd : (h.rom h.pc).dest_bits % 2 = 1
    · simp only [hd, if_true, if_pos]
      exact RAM.cpu_write_keyboard _ _ _
    · simp only [hd, if_false, if_neg, not_false_iff]
  · rfl

/-- The stepping loop of `run_steps` never changes the keyboard word. -/
theorem run_steps_loop_keyboard (n : Nat) (s : EmulatorState) :
    (run_steps_loop s n).hardware.ram.contents RAM.KBD =
      s.hardware.ram.contents RAM.KBD := by
  induction n generalizing s with
  | zero => rfl
  | succ n ih =>
    unfold run_steps_loop
    split
    · exact Hardware.step_keyboard s.hardware
    · exact (ih _).trans (Hardware.step_keyboard s.hardware)

/-- Counterexample to claim C2 as stated: pressing the key with code 65 and
running one step leaves the keyboard word at the fixed value 32 — not at the
code of the pressed key — because `run_steps` writes the constant 32 for any
pressed key. -/
theorem run_steps_keyboard_counterexample :
    (run_steps demoState 1 (some 65)).hardware.ram.contents RAM.KBD = 32 ∧
      (32 : Nat) ≠ 65 := by
  exact ⟨rfl, by decide⟩

/-- Claim C2 (amended): when `run_steps` executes with a positive step
budget, the keyboard word is set to the fixed code 32 whenever any key is
pressed — regardless of which key — and to 0 when no key is pressed. -/
theorem run_steps_keyboard_value (s : EmulatorState) (n : Nat) (key_down : Option Nat)
    (hn : 0 < n) :
    (run_steps s n key_down).hardware.ram.contents RAM.KBD =
      match key_down with
      | some _ => 32
      | none => 0 := by
  unfold run_steps
  rw [if_pos hn]
  cases key_down with
  | some code =>
    rw [run_steps_loop_keyboard]
    rfl
  | none =>
    rw [run_steps_loop_keyboard]
    rfl

/-- Witness for the amended claim C2 at a concrete state, budget 2, pressed
key 65 and no key. -/
theorem run_steps_keyboard_value_witness :
    (run_steps demoState 2 (some 65)).hardware.ram.contents RAM.KBD = 32 ∧
      (run_steps demoState 2 none).hardware.ram.contents RAM.KBD = 0 :=
  ⟨run_steps_keyboard_value demoState 2 (some 65) (by decide),
    run_steps_keyboard_value demoState 2 none (by decide)⟩

/-- The ordered list of stop flags returned by the CPU steps of an event
trace (keyboard writes contribute nothing). -/
def stepFlags (events : List RunEvent) : List Bool :=
  events.filterMap RunEvent.stepFlag

/-- There are no step flags in an empty trace. -/
theorem stepFlags_nil : stepFlags [] = [] := rfl

/-- Keyboard writes contribute no step flag. -/
theorem stepFlags_keyboard (c : Nat) (l : List RunEvent) :
    stepFlags (RunEvent.keyboardWrite c :: l) = stepFlags l := rfl

/-- Each CPU-step event contributes its stop flag. -/
theorem stepFlags_cpuStep (b : Bool) (l : List RunEvent) :
    stepFlags (RunEvent.cpuStep b :: l) = b :: stepFlags l := rfl

/-- The instrumented loop computes the same final state as the loop of
`run_steps`. -/
theorem run_steps_loop_events_snd (n : Nat) (s : EmulatorState) :
    (run_steps_loop_events s n).snd = run_steps_loop s n := by
  induction n generalizing s with
  | zero => rfl
  | succ n ih =>
    unfold run_steps_loop_events run_steps_loop
    by_cases hc : (s.step).snd = true
    · rw [if_pos hc, if_pos hc]
    · rw [if_neg hc, if_neg hc]
      exact ih _

/-- The stepping loop emits no keyboard-write event. -/
theorem run_steps_loop_events_no_keyboard (n : Nat) (s : EmulatorState) :
    ∀ e ∈ (run_steps_loop_events s n).fst, e.isKeyboardWrite = false := by
  induction n generalizing s with
  | zero =>
    intro e he
    cases he
  | succ n ih =>
    intro e he
    unfold run_steps_loop_events at he
    by_cases hc : (s.step).snd = true
    · rw [if_pos hc] at he
      cases he with
      | head => rfl
      | tail _ h2 => cases h2
    · rw [if_neg hc] at he
      cases he with
      | head => rfl
      | tail _ h2 => exact ih _ e h2

/-- The loop invokes the CPU step at most as many times as its budget. -/
theorem run_steps_loop_events_flags_length (n : Nat) (s : EmulatorState) :
    (stepFlags (run_steps_loop_events s n).fst).length ≤ n := by
  induction n generalizing s with
  | zero => exact Nat.le.refl
  | succ n ih =>
    unfold run_steps_loop_events
    by_cases hc : (s.step).snd = true
    · rw [if_pos hc]
      exact Nat.succ_le_succ (Nat.zero_le n)
    · rw [if_neg hc]
      exact Nat.succ_le_succ (ih _)

/-- Every step of the loop except possibly the last reports no stop. -/
theorem run_steps_loop_events_flags_dropLast (n : Nat) (s : EmulatorState) :
    ∀ b ∈ (stepFlags (run_steps_loop_events s n).fst).dropLast, b = false := by
  induction n generalizing s with
  | zero =>
    intro b hb
    cases hb
  | succ n ih =>
    intro b hb
    unfold run_steps_loop_events at hb
    by_cases hc : (s.step).snd = true
    · rw [if_pos hc] at hb
      cases hb
    · rw [if_neg hc] at hb
      rcases hL : stepFlags (run_steps_loop_events (s.step).fst n).fst with _ | ⟨c, t⟩
      · rw [stepFlags_cpuStep, hL] at hb
        cases hb
      · rw [stepFlags_cpuStep, hL] at hb
        cases hb with
        | head => rfl
        | tail _ h2 =>
          apply ih (s.step).fst b
          rw [hL]
          exact h2

/-- If some step of the loop reports a stop, the loop clears `run_started`. -/
theorem run_steps_loop_events_halt_stops (n : Nat) (s : EmulatorState) :
    true ∈ stepFlags (run_steps_loop_events s n).fst →
      (run_steps_loop s n).shared_state.run_started = false := by
  induction n generalizing s with
  | zero =>
    intro hb
    cases hb
  | succ n ih =>
    intro hb
    unfold run_steps_loop_events at hb
    unfold run_steps_loop
    by_cases hc : (s.step).snd = true
    · rw [if_pos hc]
    · rw [if_neg hc] at hb
      rw [if_neg hc]
      rw [stepFlags_cpuStep] at hb
      cases hb with
      | tail _ h2 => exact ih _ h2

/-- With a positive budget and a key down, `run_steps_events` is the two
keyboard writes followed by the instrumented loop. -/
theorem run_steps_events_some (s : EmulatorState) (n : Nat) (code : Nat) (hn : 0 < n) :
    run_steps_events s n (some code) =
      (RunEvent.keyboardWrite 0 :: RunEvent.keyboardWrite 32 ::
          (run_steps_loop_events ((s.setKeyboard 0).setKeyboard 32) n).fst,
        (run_steps_loop_events ((s.setKeyboard 0).setKeyboard 32) n).snd) := by
  unfold run_steps_events
  rw [if_pos hn]

/-- With a positive budget and no key down, `run_steps_events` is the single
keyboard write followed by the instrumented loop. -/
theorem run_steps_events_none (s : EmulatorState) (n : Nat) (hn : 0 < n) :
    run_steps_events s n none =
      (RunEvent.keyboardWrite 0 ::
          (run_steps_loop_events (s.setKeyboard 0) n).fst,
        (run_steps_loop_events (s.setKeyboard 0) n).snd) := by
  unfold run_steps_events
  rw [if_pos hn]

/-- With a positive budget and a key down, `run_steps` applies the two
keyboard writes and enters the loop. -/
theorem run_steps_pos_some (s : EmulatorState) (n : Nat) (code : Nat) (hn : 0 < n) :
    run_steps s n (some code) = run_steps_loop ((s.setKeyboard 0).setKeyboard 32) n := by
  unfold run_steps
  rw [if_pos hn]

/-- With a positive budget and no key down, `run_steps` applies the single
keyboard write and enters the loop. -/
theorem run_steps_pos_none (s : EmulatorState) (n : Nat) (hn : 0 < n) :
    run_steps s n none = run_steps_loop (s.setKeyboard 0) n := by
  unfold run_steps
  rw [if_pos hn]

/-- Claim C1: a budgeted `run_steps` with budget `n` invokes the CPU step at
most `n` times; every step before the last reports no stop; and if some step
reports halted then `run_started` is false afterwards (the instrumented
trace computes the same final state as `run_steps` itself). -/
theorem run_steps_budget (s : EmulatorState) (n : Nat) (key_down : Option Nat) :
    (stepFlags (run_steps_events s n key_down).fst).length ≤ n ∧
      (∀ b ∈ (stepFlags (run_steps_events s n key_down).fst).dropLast, b = false) ∧
      (true ∈ stepFlags (run_steps_events s n key_down).fst →
        (run_steps s n key_down).shared_state.run_started = false) ∧
      (run_steps_events s n key_down).snd = run_steps s n key_down := by
  cases n with
  | zero =>
    refine ⟨Nat.le.refl, ?_, ?_, rfl⟩
    · intro b hb
      cases hb
    · intro hb
      cases hb
  | succ n =>
    have hpos : 0 < n + 1 := Nat.succ_pos n
    cases key_down with
    | some code =>
      rw [run_steps_events_some s (n + 1) code hpos, run_steps_pos_some s (n + 1) code hpos]
      dsimp only
      rw [stepFlags_keyboard, stepFlags_keyboard]
      exact ⟨run_steps_loop_events_flags_length _ _,
        run_steps_loop_events_flags_dropLast _ _,
        run_steps_loop_events_halt_stops _ _,
        run_steps_loop_events_snd _ _⟩
    | none =>
      rw [run_steps_events_none s (n + 1) hpos, run_steps_pos_none s (n + 1) hpos]
      dsimp only
      rw [stepFlags_keyboard]
      exact ⟨run_steps_loop_events_flags_length _ _,
        run_steps_loop_events_flags_dropLast _ _,
        run_steps_loop_events_halt_stops _ _,
        run_steps_loop_events_snd _ _⟩

/-- Claim C8: in every invocation of `run_steps`, the event trace splits into
a block of keyboard writes followed by a block of CPU steps: all external
keyboard input is applied before the first CPU step of the batch, and the
stepper never writes the keyboard word between two steps (the instrumented
trace computes the same final state as `run_steps` itself). -/
theorem run_steps_keyboard_before_steps (s : EmulatorState) (n : Nat) (key_down : Option Nat) :
    ∃ ws ss, (run_steps_events s n key_down).fst = ws ++ ss ∧
      (∀ e ∈ ws, e.isKeyboardWrite = true) ∧
      (∀ e ∈ ss, e.isKeyboardWrite = false) ∧
      (run_steps_events s n key_down).snd = run_steps s n key_down := by
  cases n with
  | zero =>
    refine ⟨[], [], rfl, ?_, ?_, rfl⟩
    · intro e he
      cases he
    · intro e he
      cases he
  | succ n =>
    have hpos : 0 < n + 1 := Nat.succ_pos n
    cases key_down with
    | some code =>
      refine ⟨[RunEvent.keyboardWrite 0, RunEvent.keyboardWrite 32],
        (run_steps_loop_events ((s.setKeyboard 0).setKeyboard 32) (n + 1)).fst,
        ?_, ?_, ?_, ?_⟩
      · rw [run_steps_events_some s (n + 1) code hpos]
        rfl
      · intro e he
        cases he with
        | head => rfl
        | tail _ h2 =>
          cases h2 with
          | head => rfl
          | tail _ h3 => cases h3
      · exact run_steps_loop_events_no_keyboard _ _
      · rw [run_steps_events_some s (n + 1) code hpos, run_steps_pos_some s (n + 1) code hpos]
        exact run_steps_loop_events_snd _ _
    | none =>
      refine ⟨[RunEvent.keyboardWrite 0],
        (run_steps_loop_events (s.setKeyboard 0) (n + 1)).fst,
        ?_, ?_, ?_, ?_⟩
      · rw [run_steps_events_none s (n + 1) hpos]
        rfl
      · intro e he
        cases he with
        | head => rfl
        | tail _ h2 => cases h2
      · exact run_steps_loop_events_no_keyboard _ _
      · rw [run_steps_events_none s (n + 1) hpos, run_steps_pos_none s (n + 1) hpos]
        exact run_steps_loop_events_snd _ _

/-- Single-stepping distributes over the front step. -/
theorem Hardware.stepIter_succ_front (h : Hardware) (n : Nat) :
    h.stepIter (n + 1) = ((h.step).fst).stepIter n :=
  rfl

/-- Claim C6: with a sufficiently large step budget, `run` stops at the first
step after which some registered breakpoint's watched variable equals its
target (no earlier step having reported halted or matched a breakpoint), and
the machine state at the stop equals the state obtained by single-stepping
the same number of steps. -/
theorem run_breakpoint_first (h : Hardware) (n j : Nat) :
    j < n →
    Hardware.bpMatched (h.stepIter (j + 1)) = true →
    (∀ i, i < j → Hardware.stopsAt h i = false) →
    (Hardware.run h n).fst = h.stepIter (j + 1) := by
  induction j generalizing h n with
  | zero =>
    intro hjn hmatch hprev
    cases n with
    | zero => exact absurd hjn (Nat.lt_irrefl 0)
    | succ m =>
      unfold Hardware.run
      rw [if_pos (Bool.or_eq_true _ _ ▸ Or.inr hmatch)]
      rfl
  | succ j ih =>
    intro hjn hmatch hprev
    cases n with
    | zero => exact absurd hjn (Nat.not_lt_zero _)
    | succ m =>
      have h0 : ((h.step).snd || Hardware.bpMatched (h.step).fst) = false :=
        hprev 0 (Nat.succ_pos j)
      unfold Hardware.run
      rw [if_neg (by rw [h0]; exact Bool.false_ne_true)]
      exact ih (h.step).fst m (Nat.lt_of_succ_lt_succ hjn) hmatch
        (fun i hi => hprev (i + 1) (Nat.succ_lt_succ hi))

/-- A concrete hardware state for instantiating the breakpoint theorem: the
program loads 5 into the address register, then 7; one breakpoint watches
the address register for the value 7. -/
def bpDemoHardware : Hardware :=
  { pc := 0, a := 0, d := 0,
    rom := fun i => Instruction.new (if i = 0 then 5 else 7),
    ram := { contents := fun _ => 0 },
    breakpoints := [{ var := BreakpointVar.A, value := 7 }] }

/-- Witness for C6: on the concrete program, a run with budget 3 stops after
exactly two steps — when the address register first equals the breakpoint
target 7 — in the same state as single-stepping twice. -/
theorem run_breakpoint_first_witness :
    (Hardware.run bpDemoHardware 3).fst = bpDemoHardware.stepIter 2 :=
  run_breakpoint_first bpDemoHardware 3 1 (by decide) (by decide) (by decide)
